import Mathlib

/-!
Verification of the QuickDraw-Doodler sequence-VAE core against its
specification.  Real-valued tensor mathematics from the source files
(models/vae.py, models/rnnv1.py, utils/process_data.py, src/data.py)
is embedded shallowly: per-element computations become functions on the
real numbers, tensors over a last axis become functions from index types,
reductions become finite sums, and the autoregressive sampling loop
becomes structural recursion on the step budget.
-/

open Real Filter

/-! ## KL annealing schedule (models/vae.py, compute_anneal_factor) -/

/-- Embedding of compute_anneal_factor from models/vae.py:
anneal = 1 - (1 - kl_weight_start) * kl_decay_rate ** step, returned as
anneal * kl_weight. -/
noncomputable def compute_anneal_factor (step : ℕ) (kl_weight_start kl_decay_rate kl_weight : ℝ) : ℝ :=
  (1 - (1 - kl_weight_start) * kl_decay_rate ^ step) * kl_weight

/-- C6: for kl_weight_start in [0, 1), kl_decay_rate in (0, 1) and a positive
configured kl_weight, the anneal factor starts at kl_weight_start times
kl_weight at step 0, strictly increases with the step count, and tends to
kl_weight as the step count tends to infinity. -/
theorem compute_anneal_factor_schedule (s d w : ℝ)
    (hs0 : 0 ≤ s) (hs1 : s < 1) (hd0 : 0 < d) (hd1 : d < 1) (hw : 0 < w) :
    compute_anneal_factor 0 s d w = s * w ∧
    StrictMono (fun step => compute_anneal_factor step s d w) ∧
    Tendsto (fun step => compute_anneal_factor step s d w) atTop (nhds w) := by
  refine ⟨by simp [compute_anneal_factor], ?_, ?_⟩
  · intro m n hmn
    simp only [compute_anneal_factor]
    have h1 : d ^ n < d ^ m := pow_lt_pow_right_of_lt_one₀ hd0 hd1 hmn
    have h2 : (0:ℝ) < 1 - s := by linarith
    have h3 : (1 - s) * d ^ n < (1 - s) * d ^ m := mul_lt_mul_of_pos_left h1 h2
    have h4 : 1 - (1 - s) * d ^ m < 1 - (1 - s) * d ^ n := by linarith
    exact mul_lt_mul_of_pos_right h4 hw
  · have h : Tendsto (fun n : ℕ => d ^ n) atTop (nhds 0) :=
      tendsto_pow_atTop_nhds_zero_of_lt_one hd0.le hd1
    have hc : Tendsto (fun _ : ℕ => (1 : ℝ)) atTop (nhds 1) := tendsto_const_nhds
    have h2 := (hc.sub (h.const_mul (1 - s))).mul_const w
    simpa [compute_anneal_factor] using h2

/-- Witness for C6 at kl_weight_start = 0, kl_decay_rate = 1/2, kl_weight = 1. -/
theorem compute_anneal_factor_schedule_witness :
    (0:ℝ) ≤ 0 ∧ (0:ℝ) < 1 ∧ (0:ℝ) < 1/2 ∧ (1:ℝ)/2 < 1 ∧
    (compute_anneal_factor 0 0 (1/2) 1 = 0 * 1 ∧
     StrictMono (fun step => compute_anneal_factor step 0 (1/2) 1) ∧
     Tendsto (fun step => compute_anneal_factor step 0 (1/2) 1) atTop (nhds 1)) :=
  ⟨le_refl 0, one_pos, one_half_pos, one_half_lt_one,
    compute_anneal_factor_schedule 0 (1/2) 1 (le_refl 0) one_pos one_half_pos
      one_half_lt_one one_pos⟩

/-! ## KL divergence loss (models/vae.py, kl_divergence_loss) -/

/-- Embedding of the summed KL term of kl_divergence_loss from models/vae.py:
kl = -0.5 * torch.sum(1 + logvar - mu.pow(2) - logvar.exp()), the sum running
over all batch samples and latent dimensions. -/
noncomputable def kl_sum {B L : ℕ} (mu logvar : Fin B → Fin L → ℝ) : ℝ :=
  -0.5 * ∑ b, ∑ l, (1 + logvar b l - (mu b l) ^ 2 - Real.exp (logvar b l))

/-- Embedding of torch.clamp(kl, min=tol) applied to the summed KL term. -/
noncomputable def kl_clamped {B L : ℕ} (mu logvar : Fin B → Fin L → ℝ) (tol : ℝ) : ℝ :=
  if kl_sum mu logvar < tol then tol else kl_sum mu logvar

/-- Embedding of kl_divergence_loss from models/vae.py: the clamped KL term is
scaled by the anneal factor and divided by the batch size mu.size(0). -/
noncomputable def kl_divergence_loss {B L : ℕ} (mu logvar : Fin B → Fin L → ℝ)
    (anneal_factor tol : ℝ) : ℝ :=
  anneal_factor * kl_clamped mu logvar tol / B

/-- C5: the raw KL sum is nonnegative for every pair of mu and logvar tensors,
the clamped KL is at least the tolerance floor, and the loss operation returns
the anneal factor times the clamped KL divided by the batch size. -/
theorem kl_divergence_loss_spec {B L : ℕ} (mu logvar : Fin B → Fin L → ℝ)
    (anneal_factor tol : ℝ) :
    0 ≤ kl_sum mu logvar ∧
    tol ≤ kl_clamped mu logvar tol ∧
    kl_divergence_loss mu logvar anneal_factor tol
      = anneal_factor * max (kl_sum mu logvar) tol / B := by
  have hsum : ∑ b, ∑ l, (1 + logvar b l - (mu b l) ^ 2 - Real.exp (logvar b l)) ≤ 0 := by
    apply Finset.sum_nonpos
    intro b _
    apply Finset.sum_nonpos
    intro l _
    have := Real.add_one_le_exp (logvar b l)
    nlinarith [sq_nonneg (mu b l)]
  refine ⟨by simp only [kl_sum]; nlinarith, ?_, ?_⟩
  · simp only [kl_clamped]
    split
    · exact le_refl tol
    · linarith [not_lt.mp (by assumption : ¬ kl_sum mu logvar < tol)]
  · simp only [kl_divergence_loss, kl_clamped, max_def]
    rcases lt_or_ge (kl_sum mu logvar) tol with h | h
    · rw [if_pos h, if_pos h.le]
    · rw [if_neg (not_lt.mpr h)]
      rcases eq_or_lt_of_le h with h2 | h2
      · rw [if_pos h2.ge, h2]
      · rw [if_neg (not_le.mpr h2)]

/-! ## Mixture density output layer (models/rnnv1.py, get_mixture_coeff)

The decoder output at one batch and sequence position is a vector along the
last axis, embedded as a function from natural-number indices to reals; the
slice output[..., a : b] becomes the function sending i to the entry a + i. -/

/-- Embedding of last-axis slicing output[..., start : ...]. -/
def sliceAt (out : ℕ → ℝ) (start : ℕ) : ℕ → ℝ := fun i => out (start + i)

/-- Embedding of F.softmax along an axis of length n. -/
noncomputable def softmaxAt (v : ℕ → ℝ) (n : ℕ) : ℕ → ℝ :=
  fun i => Real.exp (v i) / ∑ j ∈ Finset.range n, Real.exp (v j)

/-- Embedding of torch.tanh on one element, written out through exp as the
ratio of exp x - exp (-x) and exp x + exp (-x). -/
noncomputable def torchTanh (x : ℝ) : ℝ :=
  (Real.exp x - Real.exp (-x)) / (Real.exp x + Real.exp (-x))

/-- Slice output[..., :M] of get_mixture_coeff, the raw mixture weights. -/
def z_pi_raw (out : ℕ → ℝ) : ℕ → ℝ := sliceAt out 0

/-- Slice output[..., M : 2M], the means for dx, left untransformed. -/
def z_mu_dx (out : ℕ → ℝ) (M : ℕ) : ℕ → ℝ := sliceAt out M

/-- Slice output[..., 2M : 3M], the means for dy, left untransformed. -/
def z_mu_dy (out : ℕ → ℝ) (M : ℕ) : ℕ → ℝ := sliceAt out (2 * M)

/-- Slice output[..., 3M : 4M], the means for dt, left untransformed. -/
def z_mu_dt (out : ℕ → ℝ) (M : ℕ) : ℕ → ℝ := sliceAt out (3 * M)

/-- Slice output[..., 4M : 5M], the raw sigma values for dx. -/
def z_sigma_dx_raw (out : ℕ → ℝ) (M : ℕ) : ℕ → ℝ := sliceAt out (4 * M)

/-- Slice output[..., 5M : 6M], the raw sigma values for dy. -/
def z_sigma_dy_raw (out : ℕ → ℝ) (M : ℕ) : ℕ → ℝ := sliceAt out (5 * M)

/-- Slice output[..., 6M : 7M], the raw sigma values for dt. -/
def z_sigma_dt_raw (out : ℕ → ℝ) (M : ℕ) : ℕ → ℝ := sliceAt out (6 * M)

/-- Slice output[..., 7M : 8M], the raw correlation values. -/
def z_corr_raw (out : ℕ → ℝ) (M : ℕ) : ℕ → ℝ := sliceAt out (7 * M)

/-- Slice output[..., 8M : 8M+3], the pen-state logits. -/
def z_pen_logits (out : ℕ → ℝ) (M : ℕ) : ℕ → ℝ := sliceAt out (8 * M)

/-- Activated mixture weights: F.softmax over the mode axis of length M. -/
noncomputable def z_pi (out : ℕ → ℝ) (M : ℕ) : ℕ → ℝ := softmaxAt (z_pi_raw out) M

/-- Activated pen-state probabilities: F.softmax over the 3 pen logits. -/
noncomputable def z_pen (out : ℕ → ℝ) (M : ℕ) : ℕ → ℝ := softmaxAt (z_pen_logits out M) 3

/-- Activated sigma for dx: torch.exp of the raw slice. -/
noncomputable def z_sigma_dx (out : ℕ → ℝ) (M : ℕ) : ℕ → ℝ :=
  fun i => Real.exp (z_sigma_dx_raw out M i)

/-- Activated sigma for dy: torch.exp of the raw slice. -/
noncomputable def z_sigma_dy (out : ℕ → ℝ) (M : ℕ) : ℕ → ℝ :=
  fun i => Real.exp (z_sigma_dy_raw out M i)

/-- Activated sigma for dt: torch.exp of the raw slice. -/
noncomputable def z_sigma_dt (out : ℕ → ℝ) (M : ℕ) : ℕ → ℝ :=
  fun i => Real.exp (z_sigma_dt_raw out M i)

/-- Activated correlations: torch.tanh of the raw slice. -/
noncomputable def z_corr (out : ℕ → ℝ) (M : ℕ) : ℕ → ℝ :=
  fun i => torchTanh (z_corr_raw out M i)

/-- Softmax entries are nonnegative. -/
theorem softmaxAt_nonneg (v : ℕ → ℝ) (n : ℕ) (hn : 1 ≤ n) (i : ℕ) :
    0 ≤ softmaxAt v n i := by
  have hden : 0 < ∑ j ∈ Finset.range n, Real.exp (v j) :=
    Finset.sum_pos (fun j _ => Real.exp_pos (v j)) (Finset.nonempty_range_iff.mpr (by omega))
  exact div_nonneg (Real.exp_pos (v i)).le hden.le

/-- Softmax entries over a nonempty axis sum to one. -/
theorem softmaxAt_sum_one (v : ℕ → ℝ) (n : ℕ) (hn : 1 ≤ n) :
    ∑ i ∈ Finset.range n, softmaxAt v n i = 1 := by
  have hden : 0 < ∑ j ∈ Finset.range n, Real.exp (v j) :=
    Finset.sum_pos (fun j _ => Real.exp_pos (v j)) (Finset.nonempty_range_iff.mpr (by omega))
  simp only [softmaxAt]
  rw [← Finset.sum_div, div_self hden.ne']

/-- Embedded tanh takes values strictly between -1 and 1. -/
theorem torchTanh_mem (x : ℝ) : -1 < torchTanh x ∧ torchTanh x < 1 := by
  have h1 : 0 < Real.exp x := Real.exp_pos x
  have h2 : 0 < Real.exp (-x) := Real.exp_pos (-x)
  have hden : 0 < Real.exp x + Real.exp (-x) := by linarith
  constructor
  · rw [torchTanh, neg_lt, ← neg_div]
    rw [div_lt_one hden]
    linarith
  · rw [torchTanh, div_lt_one hden]
    linarith

/-- C3: after the activation step of get_mixture_coeff, the M mixture weights
are nonnegative and sum to one over the mode axis, every sigma value is
strictly positive, every correlation value lies strictly between -1 and 1, the
three pen-state probabilities sum to one, and the mean slices equal the raw
entries of the decoder output at offsets M, 2M and 3M untransformed. -/
theorem get_mixture_coeff_spec (out : ℕ → ℝ) (M : ℕ) (hM : 1 ≤ M) :
    (∀ i, 0 ≤ z_pi out M i) ∧
    (∑ i ∈ Finset.range M, z_pi out M i = 1) ∧
    (∀ i, 0 < z_sigma_dx out M i) ∧
    (∀ i, 0 < z_sigma_dy out M i) ∧
    (∀ i, 0 < z_sigma_dt out M i) ∧
    (∀ i, -1 < z_corr out M i ∧ z_corr out M i < 1) ∧
    (∑ i ∈ Finset.range 3, z_pen out M i = 1) ∧
    (∀ i, z_mu_dx out M i = out (M + i)) ∧
    (∀ i, z_mu_dy out M i = out (2 * M + i)) ∧
    (∀ i, z_mu_dt out M i = out (3 * M + i)) := by
  refine ⟨fun i => softmaxAt_nonneg _ M hM i,
    softmaxAt_sum_one _ M hM,
    fun i => Real.exp_pos _, fun i => Real.exp_pos _, fun i => Real.exp_pos _,
    fun i => torchTanh_mem _,
    softmaxAt_sum_one _ 3 (by omega),
    fun i => rfl, fun i => rfl, fun i => rfl⟩

/-- Witness for C3 at mode count 1 and the zero decoder output. -/
theorem get_mixture_coeff_spec_witness :
    1 ≤ 1 ∧ (∑ i ∈ Finset.range 1, z_pi (fun _ => 0) 1 i = 1) :=
  ⟨le_refl 1, (get_mixture_coeff_spec (fun _ => 0) 1 (le_refl 1)).2.1⟩

/-! ## Gaussian densities (models/rnnv1.py, pt_1d_normal and pt_2d_normal) -/

/-- Embedding of pt_1d_normal from models/rnnv1.py at one element:
prob = (1 / (sigma * sqrt(2 pi))) * exp(-0.5 * ((x - mu) / sigma) ** 2). -/
noncomputable def pt_1d_normal (x mu sigma : ℝ) : ℝ :=
  (1 / (sigma * Real.sqrt (2 * Real.pi))) * Real.exp (-0.5 * ((x - mu) / sigma) ^ 2)

/-- Embedding of pt_2d_normal from models/rnnv1.py at one element.  The code
divides the quadratic form z by 1 - rho ** 2 + epsilon before exponentiating:
z = (norm1 ** 2 + norm2 ** 2 - 2 rho norm1 norm2) / (1 - rho ** 2 + epsilon),
prob = exp(-z / 2) / (2 pi s1 s2 sqrt(1 - rho ** 2 + epsilon)). -/
noncomputable def pt_2d_normal (x1 x2 mu1 mu2 s1 s2 rho eps : ℝ) : ℝ :=
  let norm1 := (x1 - mu1) / s1
  let norm2 := (x2 - mu2) / s2
  let z := (norm1 ^ 2 + norm2 ^ 2 - 2 * rho * norm1 * norm2) / (1 - rho ^ 2 + eps)
  Real.exp (-z / 2) / (2 * Real.pi * s1 * s2 * Real.sqrt (1 - rho ^ 2 + eps))

/-- Modelled from the wording of the specification for comparison with the
code: the closed form claimed in section 4.2, whose exponent uses the
quadratic form z = norm1 ^ 2 + norm2 ^ 2 - 2 corr norm1 norm2 without the
division by 1 - corr ^ 2 + eps, the epsilon appearing only under the square
root of the normalizing constant. -/
noncomputable def spec_pt_2d_normal (x1 x2 mu1 mu2 s1 s2 rho eps : ℝ) : ℝ :=
  let norm1 := (x1 - mu1) / s1
  let norm2 := (x2 - mu2) / s2
  let z := norm1 ^ 2 + norm2 ^ 2 - 2 * rho * norm1 * norm2
  Real.exp (-z / 2) / (2 * Real.pi * s1 * s2 * Real.sqrt (1 - rho ^ 2 + eps))

/-- C1 counterexample: at displacement (1, 0) under the standard parameters
mu = 0, sigma = 1, corr = 0 and epsilon 1e-6, the density computed by
pt_2d_normal differs from the closed form stated in the specification,
because the code also divides the quadratic form by 1 - corr ^ 2 + 1e-6. -/
theorem pt_2d_normal_counterexample :
    pt_2d_normal 1 0 0 0 1 1 0 (1e-6) ≠ spec_pt_2d_normal 1 0 0 0 1 1 0 (1e-6) := by
  intro h
  simp only [pt_2d_normal, spec_pt_2d_normal] at h
  norm_num at h
  have hD : (0:ℝ) < 2 * Real.pi * (Real.sqrt 1000001 / Real.sqrt 1000000) := by positivity
  have h2 : Real.exp (-(500000/1000001)) = Real.exp (-(1/2 : ℝ)) := by
    have h3 := congrArg (fun t => t * (2 * Real.pi * (Real.sqrt 1000001 / Real.sqrt 1000000))) h
    simpa [div_mul_cancel₀, hD.ne'] using h3
  rw [Real.exp_eq_exp] at h2
  norm_num at h2

/-- C1 amended: with both sigmas positive, the density computed by
pt_2d_normal equals the closed form of the specification amended so that the
quadratic form z is additionally divided by 1 - corr ^ 2 + 1e-6 before the
exponential, the epsilon thus appearing both in the denominator of z and
under the square root. -/
theorem pt_2d_normal_closed_form (x1 x2 mu1 mu2 s1 s2 rho : ℝ)
    (hs1 : 0 < s1) (hs2 : 0 < s2) :
    pt_2d_normal x1 x2 mu1 mu2 s1 s2 rho (1e-6) =
      Real.exp (-((((x1 - mu1) / s1) ^ 2 + ((x2 - mu2) / s2) ^ 2
            - 2 * rho * ((x1 - mu1) / s1) * ((x2 - mu2) / s2))
          / (1 - rho ^ 2 + 1e-6)) / 2)
        / (2 * Real.pi * s1 * s2 * Real.sqrt (1 - rho ^ 2 + 1e-6)) := rfl

/-- Witness for C1 at x1 = 1, x2 = 0, zero means, unit sigmas, zero corr. -/
theorem pt_2d_normal_closed_form_witness :
    (0:ℝ) < 1 ∧
    pt_2d_normal 1 0 0 0 1 1 0 (1e-6) =
      Real.exp (-((((1 - 0) / 1) ^ 2 + ((0 - 0) / 1) ^ 2
            - 2 * 0 * ((1 - 0) / 1) * ((0 - 0) / 1)) / (1 - 0 ^ 2 + 1e-6)) / 2)
        / (2 * Real.pi * 1 * 1 * Real.sqrt (1 - 0 ^ 2 + 1e-6)) :=
  ⟨one_pos, pt_2d_normal_closed_form 1 0 0 0 1 1 0 one_pos one_pos⟩

/-! ## Reconstruction loss (models/rnnv1.py, reconstruction_loss)

Batches are embedded as functions of a batch index and a timestep index.
The target is in stroke-6 layout (dx, dy, dt, p1, p2, p3); the code reads
dx, dy, dt from components 0, 1, 2 and casts component 3 to an integer class
index with .long(). -/

/-- Embedding of F.cross_entropy with reduction none at one position: the log
of the summed exponentials of the three logits minus the logit of the class;
torch raises on a class index outside the range, embedded as the junk value
zero on the unreachable branch. -/
noncomputable def cross_entropy (logits : Fin 3 → ℝ) (cls : ℕ) : ℝ :=
  if h : cls < 3 then Real.log (∑ j, Real.exp (logits j)) - logits ⟨cls, h⟩ else 0

/-- Embedding of pen_state = target[..., 3].long() in reconstruction_loss:
the fourth stroke-6 component, the p1 pen-down flag, truncated to an integer
and used as the class index. -/
noncomputable def code_pen_state {B T : ℕ} (target : Fin B → Fin T → Fin 6 → ℝ)
    (b : Fin B) (t : Fin T) : ℕ :=
  (⌊target b t 3⌋).toNat

/-- Embedding of the mask tensor entries as reals, 1 at valid timesteps. -/
def mask_val {B T : ℕ} (mask : Fin B → Fin T → Bool) (b : Fin B) (t : Fin T) : ℝ :=
  if mask b t then 1 else 0

/-- Embedding of spatial_prob in reconstruction_loss: per-mode bivariate
densities times mixture weights, summed over the mode axis, plus 1e-6. -/
noncomputable def code_spatial_prob {B T M : ℕ} (target : Fin B → Fin T → Fin 6 → ℝ)
    (pi mu_dx mu_dy sigma_dx sigma_dy corr : Fin B → Fin T → Fin M → ℝ)
    (b : Fin B) (t : Fin T) : ℝ :=
  (∑ m, pt_2d_normal (target b t 0) (target b t 1) (mu_dx b t m) (mu_dy b t m)
      (sigma_dx b t m) (sigma_dy b t m) (corr b t m) (1e-6) * pi b t m) + 1e-6

/-- Embedding of temporal_prob in reconstruction_loss: per-mode univariate
densities times mixture weights, summed over the mode axis, plus 1e-6. -/
noncomputable def code_temporal_prob {B T M : ℕ} (target : Fin B → Fin T → Fin 6 → ℝ)
    (pi mu_dt sigma_dt : Fin B → Fin T → Fin M → ℝ) (b : Fin B) (t : Fin T) : ℝ :=
  (∑ m, pt_1d_normal (target b t 2) (mu_dt b t m) (sigma_dt b t m) * pi b t m) + 1e-6

/-- Embedding of the per-timestep stroke loss L_s of reconstruction_loss. -/
noncomputable def L_s {B T M : ℕ} (target : Fin B → Fin T → Fin 6 → ℝ)
    (pi mu_dx mu_dy mu_dt sigma_dx sigma_dy sigma_dt corr : Fin B → Fin T → Fin M → ℝ)
    (mask : Fin B → Fin T → Bool) (b : Fin B) (t : Fin T) : ℝ :=
  -(0.5 * Real.log (code_spatial_prob target pi mu_dx mu_dy sigma_dx sigma_dy corr b t + 1e-6)
      + 0.5 * Real.log (code_temporal_prob target pi mu_dt sigma_dt b t + 1e-6))
    * mask_val mask b t

/-- Embedding of the per-timestep pen loss L_p of reconstruction_loss. -/
noncomputable def L_p {B T : ℕ} (target : Fin B → Fin T → Fin 6 → ℝ)
    (pen_logits : Fin B → Fin T → Fin 3 → ℝ) (mask : Fin B → Fin T → Bool)
    (b : Fin B) (t : Fin T) : ℝ :=
  cross_entropy (pen_logits b t) (code_pen_state target b t) * mask_val mask b t

/-- Embedding of reconstruction_loss from models/rnnv1.py:
(L_s.sum() + L_p.sum()) / mask.sum(). -/
noncomputable def reconstruction_loss {B T M : ℕ} (target : Fin B → Fin T → Fin 6 → ℝ)
    (pi mu_dx mu_dy mu_dt sigma_dx sigma_dy sigma_dt corr : Fin B → Fin T → Fin M → ℝ)
    (pen_logits : Fin B → Fin T → Fin 3 → ℝ) (mask : Fin B → Fin T → Bool) : ℝ :=
  ((∑ b, ∑ t, L_s target pi mu_dx mu_dy mu_dt sigma_dx sigma_dy sigma_dt corr mask b t)
      + ∑ b, ∑ t, L_p target pen_logits mask b t)
    / ∑ b, ∑ t, mask_val mask b t

/-- Spatial mixture probability in the wording of the claim: the
mixture-weight-weighted sum over modes of the bivariate Gaussian densities,
with the floor epsilon added before the log. -/
noncomputable def spatial_mixture_prob {B T M : ℕ} (target : Fin B → Fin T → Fin 6 → ℝ)
    (pi mu_dx mu_dy sigma_dx sigma_dy corr : Fin B → Fin T → Fin M → ℝ)
    (b : Fin B) (t : Fin T) : ℝ :=
  (∑ m, pi b t m * pt_2d_normal (target b t 0) (target b t 1) (mu_dx b t m) (mu_dy b t m)
      (sigma_dx b t m) (sigma_dy b t m) (corr b t m) (1e-6)) + 1e-6

/-- Temporal mixture probability in the wording of the claim: the
mixture-weight-weighted sum over modes of the univariate Gaussian densities,
with the floor epsilon added before the log. -/
noncomputable def temporal_mixture_prob {B T M : ℕ} (target : Fin B → Fin T → Fin 6 → ℝ)
    (pi mu_dt sigma_dt : Fin B → Fin T → Fin M → ℝ) (b : Fin B) (t : Fin T) : ℝ :=
  (∑ m, pi b t m * pt_1d_normal (target b t 2) (mu_dt b t m) (sigma_dt b t m)) + 1e-6

/-- C2: with at least one valid mask entry, the scalar reconstruction loss
equals the sum over batch and time of the mask indicator times the
per-timestep loss -(0.5 log(spatial mixture probability + eps)
+ 0.5 log(temporal mixture probability + eps)), plus the sum of the mask
indicator times the pen-state cross-entropy, divided by the number of true
mask entries rather than by the batch size. -/
theorem reconstruction_loss_spec {B T M : ℕ} (target : Fin B → Fin T → Fin 6 → ℝ)
    (pi mu_dx mu_dy mu_dt sigma_dx sigma_dy sigma_dt corr : Fin B → Fin T → Fin M → ℝ)
    (pen_logits : Fin B → Fin T → Fin 3 → ℝ) (mask : Fin B → Fin T → Bool)
    (hmask : ∃ b t, mask b t = true) :
    reconstruction_loss target pi mu_dx mu_dy mu_dt sigma_dx sigma_dy sigma_dt corr
        pen_logits mask =
      ((∑ b, ∑ t, (if mask b t then (1:ℝ) else 0) *
          (-(0.5 * Real.log (spatial_mixture_prob target pi mu_dx mu_dy sigma_dx sigma_dy corr b t + 1e-6)
             + 0.5 * Real.log (temporal_mixture_prob target pi mu_dt sigma_dt b t + 1e-6))))
        + ∑ b, ∑ t, (if mask b t then (1:ℝ) else 0) *
            cross_entropy (pen_logits b t) (code_pen_state target b t))
      / ((Finset.univ.filter fun p : Fin B × Fin T => mask p.1 p.2).card : ℝ) := by
  have hspat : ∀ b t, code_spatial_prob target pi mu_dx mu_dy sigma_dx sigma_dy corr b t
      = spatial_mixture_prob target pi mu_dx mu_dy sigma_dx sigma_dy corr b t := by
    intro b t
    simp only [code_spatial_prob, spatial_mixture_prob]
    congr 1
    exact Finset.sum_congr rfl fun m _ => mul_comm _ _
  have htemp : ∀ b t, code_temporal_prob target pi mu_dt sigma_dt b t
      = temporal_mixture_prob target pi mu_dt sigma_dt b t := by
    intro b t
    simp only [code_temporal_prob, temporal_mixture_prob]
    congr 1
    exact Finset.sum_congr rfl fun m _ => mul_comm _ _
  have hcard : (∑ b, ∑ t, mask_val mask b t)
      = ((Finset.univ.filter fun p : Fin B × Fin T => mask p.1 p.2).card : ℝ) := by
    rw [← Fintype.sum_prod_type']
    simp only [mask_val]
    rw [Finset.sum_boole]
  simp only [reconstruction_loss, L_s, L_p]
  rw [hcard]
  congr 1
  congr 1
  · exact Finset.sum_congr rfl fun b _ => Finset.sum_congr rfl fun t _ => by
      rw [hspat, htemp, mul_comm, mask_val]
  · exact Finset.sum_congr rfl fun b _ => Finset.sum_congr rfl fun t _ => by
      rw [mul_comm, mask_val]

/-- Concrete one-by-one batch data used by witnesses: zero stroke target. -/
def wtarget : Fin 1 → Fin 1 → Fin 6 → ℝ := fun _ _ _ => 0

/-- Concrete single-mode parameter tensor used by witnesses: all zeros. -/
def wparam : Fin 1 → Fin 1 → Fin 1 → ℝ := fun _ _ _ => 0

/-- Concrete pen-logit tensor used by witnesses: all zeros. -/
def wlogits : Fin 1 → Fin 1 → Fin 3 → ℝ := fun _ _ _ => 0

/-- Concrete all-true mask used by witnesses. -/
def wmask : Fin 1 → Fin 1 → Bool := fun _ _ => true

/-- Witness for C2 on a one-by-one batch with a true mask, one mode and all
parameter tensors zero. -/
theorem reconstruction_loss_spec_witness :
    (∃ b t, wmask b t = true) ∧
    reconstruction_loss wtarget wparam wparam wparam wparam wparam wparam wparam wparam
        wlogits wmask =
      ((∑ b, ∑ t, (if wmask b t then (1:ℝ) else 0) *
          (-(0.5 * Real.log (spatial_mixture_prob wtarget wparam wparam wparam wparam
                wparam wparam b t + 1e-6)
             + 0.5 * Real.log (temporal_mixture_prob wtarget wparam wparam wparam b t + 1e-6))))
        + ∑ b, ∑ t, (if wmask b t then (1:ℝ) else 0) *
            cross_entropy (wlogits b t) (code_pen_state wtarget b t))
      / ((Finset.univ.filter fun p : Fin 1 × Fin 1 => wmask p.1 p.2).card : ℝ) :=
  ⟨⟨0, 0, rfl⟩,
    reconstruction_loss_spec wtarget wparam wparam wparam wparam wparam wparam wparam
      wparam wlogits wmask ⟨0, 0, rfl⟩⟩

/-! ## Pen-state class index (C4)

The stroke-6 target layout is (dx, dy, dt, p1, p2, p3).  The specification
states that the pen term is the cross-entropy against the index of the hot
pen flag; the code extracts target[..., 3], the p1 flag itself. -/

/-- Modelled from the spec: the true 3-way pen-state class index, the index
0, 1 or 2 of whichever of the three pen flags p_down, p_up, p_end is hot at
the timestep. -/
noncomputable def spec_pen_class (row : Fin 6 → ℝ) : ℕ :=
  if row 3 = 1 then 0 else if row 4 = 1 then 1 else 2

/-- Concrete one-by-one target batch whose single timestep is the end token
(0, 0, 0, 0, 0, 1) of the stroke-6 format. -/
def eos_target : Fin 1 → Fin 1 → Fin 6 → ℝ := fun _ _ i => if i = 5 then 1 else 0

/-- Concrete pen logits used to exhibit the difference of the two classes. -/
def c4_logits : Fin 3 → ℝ := fun j => if j = 2 then 1 else 0

/-- C4 failing input: at an end-token timestep, whose hot pen flag is p_end
at index 2, the code uses the p1 flag value 0 as the cross-entropy class, so
the pen loss it computes differs from the categorical cross-entropy against
the true 3-way pen-state index demanded by the claim. -/
theorem reconstruction_loss_pen_class_bug :
    code_pen_state eos_target 0 0 = 0 ∧
    spec_pen_class (eos_target 0 0) = 2 ∧
    cross_entropy c4_logits (code_pen_state eos_target 0 0)
      ≠ cross_entropy c4_logits (spec_pen_class (eos_target 0 0)) := by
  have hr3 : eos_target 0 0 3 = 0 := by
    simp only [eos_target]
    rw [if_neg (by decide)]
  have hr4 : eos_target 0 0 4 = 0 := by
    simp only [eos_target]
    rw [if_neg (by decide)]
  have h1 : code_pen_state eos_target 0 0 = 0 := by
    simp [code_pen_state, hr3]
  have h2 : spec_pen_class (eos_target 0 0) = 2 := by
    simp only [spec_pen_class, hr3, hr4]
    norm_num
  refine ⟨h1, h2, ?_⟩
  rw [h1, h2]
  simp only [cross_entropy]
  rw [dif_pos (show (0:ℕ) < 3 by norm_num), dif_pos (show (2:ℕ) < 3 by norm_num)]
  have hl0 : c4_logits ⟨0, by norm_num⟩ = 0 := by
    simp only [c4_logits]
    rw [if_neg (by decide)]
  have hl2 : c4_logits ⟨2, by norm_num⟩ = 1 := by
    simp only [c4_logits]
    rw [if_pos (by decide)]
  rw [hl0, hl2]
  intro h
  linarith

/-! ## Stroke-6 pen flags of the dataset (C9)

download_stroke_data in src/data.py emits raw pen values p = 0 at the very
first point, p = 1 for pen-down points, p = 2 for inserted pen-up points and
p = 3 at the final point.  SequentialStrokeData.__getitem__ converts a raw
point to stroke-6 with p1 = (p == 1), p2 = (p == 0), p3 = 0, then appends an
end token and prepends an all-zero start token. -/

/-- Embedding of the stroke-6 conversion of one raw (dx, dy, dt, p) point in
SequentialStrokeData.__getitem__. -/
noncomputable def stroke6_row (dx dy dt p : ℝ) : Fin 6 → ℝ :=
  fun i => if i = 0 then dx else if i = 1 then dy else if i = 2 then dt
    else if i = 3 then (if p = 1 then 1 else 0)
    else if i = 4 then (if p = 0 then 1 else 0) else 0

/-- Embedding of the end token appended by __getitem__, which coincides with
the padding rows produced by pad_batch (zeros with the last entry set to 1). -/
def eos_row : Fin 6 → ℝ := fun i => if i = 5 then 1 else 0

/-- Embedding of the all-zero start token prepended by __getitem__. -/
def sos_row : Fin 6 → ℝ := fun _ => 0

/-- Embedding of SequentialStrokeData.__getitem__ on one normalized sample
with augmentation and random scaling disabled: convert every raw point to a
stroke-6 row, append the end token, prepend the start token. -/
noncomputable def getitem_stroke6 (pts : List (ℝ × ℝ × ℝ × ℝ)) : List (Fin 6 → ℝ) :=
  sos_row :: ((pts.map fun q => stroke6_row q.1 q.2.1 q.2.2.1 q.2.2.2) ++ [eos_row])

/-- Pen-state one-hot property stated by the claim: exactly one of the three
pen flags is 1 and the other two are 0. -/
def one_hot_pen (r : Fin 6 → ℝ) : Prop :=
  (r 3 = 1 ∧ r 4 = 0 ∧ r 5 = 0) ∨ (r 3 = 0 ∧ r 4 = 1 ∧ r 5 = 0) ∨
  (r 3 = 0 ∧ r 4 = 0 ∧ r 5 = 1)

/-- Concrete raw sample as produced by the dataset pipeline for a two-stroke
drawing: first point p = 0, a pen-down point p = 1, the inserted pen-up point
p = 2, and the final point p = 3. -/
def c9_input : List (ℝ × ℝ × ℝ × ℝ) := [(0,0,0,0), (1,0,1,1), (1,0,2,2), (2,0,3,3)]

/-- C9 failing input: the stroke-6 sequence built by __getitem__ for a
two-stroke drawing contains, away from the start token, the converted pen-up
point with raw p = 2, and all three of its pen flags are 0, violating the
claimed exactly-one-hot invariant. -/
theorem getitem_pen_one_hot_bug :
    (getitem_stroke6 c9_input)[3]? = some (stroke6_row 1 0 2 2) ∧
    stroke6_row 1 0 2 2 3 = 0 ∧ stroke6_row 1 0 2 2 4 = 0 ∧
    stroke6_row 1 0 2 2 5 = 0 ∧ ¬ one_hot_pen (stroke6_row 1 0 2 2) := by
  have h3 : stroke6_row 1 0 2 2 3 = 0 := by
    simp only [stroke6_row]
    rw [if_neg (by decide), if_neg (by decide), if_neg (by decide)]
    norm_num
  have h4 : stroke6_row 1 0 2 2 4 = 0 := by
    simp only [stroke6_row]
    rw [if_neg (by decide), if_neg (by decide), if_neg (by decide), if_neg (by decide)]
    norm_num
  have h5 : stroke6_row 1 0 2 2 5 = 0 := by
    simp only [stroke6_row]
    rw [if_neg (by decide), if_neg (by decide), if_neg (by decide), if_neg (by decide),
      if_neg (by decide)]
  refine ⟨by simp [getitem_stroke6, c9_input], h3, h4, h5, ?_⟩
  simp only [one_hot_pen, h3, h4, h5]
  norm_num

/-! ## Autoregressive sampling (models/vae.py, DoodleGenRNN.sample_sketch)

The loop body of sample_sketch runs one decoder step, maps it through the
mixture head and draws one stroke-6 point from the mixture; this whole
per-step computation is embedded as an abstract deterministic function from a
generator state (hidden state, current input, random stream) to the sampled
point and the successor state.  The loop control flow, the break condition
and the final concatenation are taken from the source. -/

/-- Stroke-6 point sampled by the mixture head during generation; the
components are rational so that concrete runs are decidable. -/
structure Stroke6 where
  dx : ℚ
  dy : ℚ
  dt : ℚ
  p1 : ℚ
  p2 : ℚ
  p3 : ℚ
deriving DecidableEq

/-- Embedding of torch.argmax on the pen triple sampled_point[3:], returning
the first index attaining the maximum value. -/
def penArgmax (a b c : ℚ) : ℕ :=
  if b ≤ a ∧ c ≤ a then 0 else if c ≤ b then 1 else 2

/-- Embedding of the generation loop of sample_sketch: while budget remains,
sample a point, append it, and break if the argmax of its pen triple is 2. -/
def sampleLoop {σ : Type} (step : σ → Stroke6 × σ) : ℕ → σ → List Stroke6
  | 0, _ => []
  | n + 1, s =>
    let ps := step s
    ps.1 :: (if penArgmax ps.1.p1 ps.1.p2 ps.1.p3 = 2 then [] else sampleLoop step n ps.2)

/-- Embedding of sample_sketch: run the loop for at most seq_len steps, then
concatenate; torch.cat raises on an empty list of sampled points, embedded as
the none result. -/
def sample_sketch {σ : Type} (step : σ → Stroke6 × σ) (seq_len : ℕ) (s0 : σ) :
    Option (List Stroke6) :=
  let sketch := sampleLoop step seq_len s0
  if sketch.isEmpty then none else some sketch

/-- The generation loop never produces more points than its budget. -/
theorem sampleLoop_length_le {σ : Type} (step : σ → Stroke6 × σ) :
    ∀ (n : ℕ) (s : σ), (sampleLoop step n s).length ≤ n := by
  intro n
  induction n with
  | zero => intro s; simp [sampleLoop]
  | succ n ih =>
    intro s
    simp only [sampleLoop, List.length_cons]
    split
    · simp
    · have := ih (step s).2
      omega

/-- With a positive budget the generation loop produces at least one point. -/
theorem sampleLoop_length_pos {σ : Type} (step : σ → Stroke6 × σ) (n : ℕ) (s : σ)
    (hn : 1 ≤ n) : 1 ≤ (sampleLoop step n s).length := by
  cases n with
  | zero => omega
  | succ n => simp [sampleLoop]

/-- No point before the last produced by the loop has pen argmax 2. -/
theorem sampleLoop_dropLast {σ : Type} (step : σ → Stroke6 × σ) :
    ∀ (n : ℕ) (s : σ), ∀ p ∈ (sampleLoop step n s).dropLast,
      penArgmax p.p1 p.p2 p.p3 ≠ 2 := by
  intro n
  induction n with
  | zero => intro s p hp; simp [sampleLoop] at hp
  | succ n ih =>
    intro s p hp
    simp only [sampleLoop] at hp
    by_cases he : penArgmax (step s).1.p1 (step s).1.p2 (step s).1.p3 = 2
    · rw [if_pos he] at hp
      simp at hp
    · rw [if_neg he] at hp
      rcases hr : sampleLoop step n (step s).2 with _ | ⟨q, rest⟩
      · rw [hr] at hp
        simp at hp
      · rw [hr] at hp
        rw [List.dropLast_cons₂] at hp
        rcases List.mem_cons.mp hp with h1 | h2
        · rw [h1]; exact he
        · exact ih (step s).2 p (by rw [hr]; exact h2)

/-- If the loop stops before exhausting its budget, its last point has pen
argmax 2. -/
theorem sampleLoop_early {σ : Type} (step : σ → Stroke6 × σ) :
    ∀ (n : ℕ) (s : σ), (sampleLoop step n s).length < n →
      ∃ p, (sampleLoop step n s).getLast? = some p ∧ penArgmax p.p1 p.p2 p.p3 = 2 := by
  intro n
  induction n with
  | zero => intro s h; omega
  | succ n ih =>
    intro s h
    simp only [sampleLoop] at h ⊢
    by_cases he : penArgmax (step s).1.p1 (step s).1.p2 (step s).1.p3 = 2
    · rw [if_pos he] at h ⊢
      exact ⟨(step s).1, by simp, he⟩
    · rw [if_neg he] at h ⊢
      simp only [List.length_cons] at h
      have hlt : (sampleLoop step n (step s).2).length < n := by omega
      have hpos : 1 ≤ n := by
        by_contra hc
        push_neg at hc
        interval_cases n
        omega
      have hne : sampleLoop step n (step s).2 ≠ [] := by
        have := sampleLoop_length_pos step n (step s).2 hpos
        intro hnil
        rw [hnil] at this
        simp at this
      obtain ⟨p, hp1, hp2⟩ := ih (step s).2 hlt
      refine ⟨p, ?_, hp2⟩
      rcases hr : sampleLoop step n (step s).2 with _ | ⟨q, rest⟩
      · exact absurd hr hne
      · rw [hr] at hp1
        rw [List.getLast?_cons_cons]
        exact hp1

/-- C7: with a positive step budget, sample_sketch terminates and returns a
sequence of between 1 and max_steps stroke-6 points; no point before the last
has pen argmax 2, and whenever the loop stopped before exhausting the budget
the last point has pen argmax 2, the end-of-sequence state. -/
theorem sample_sketch_spec {σ : Type} (step : σ → Stroke6 × σ) (s0 : σ) (max_steps : ℕ)
    (h : 1 ≤ max_steps) :
    ∃ l, sample_sketch step max_steps s0 = some l ∧ 1 ≤ l.length ∧ l.length ≤ max_steps ∧
      (∀ p ∈ l.dropLast, penArgmax p.p1 p.p2 p.p3 ≠ 2) ∧
      (l.length < max_steps → ∃ p, l.getLast? = some p ∧ penArgmax p.p1 p.p2 p.p3 = 2) := by
  have hpos := sampleLoop_length_pos step max_steps s0 h
  have hne : (sampleLoop step max_steps s0).isEmpty = false := by
    rcases hr : sampleLoop step max_steps s0 with _ | ⟨q, rest⟩
    · rw [hr] at hpos; simp at hpos
    · simp
  refine ⟨sampleLoop step max_steps s0, ?_, hpos, sampleLoop_length_le step max_steps s0,
    sampleLoop_dropLast step max_steps s0, sampleLoop_early step max_steps s0⟩
  simp [sample_sketch, hne]

/-- C10: with a zero step budget sample_sketch concatenates an empty list of
points and raises, embedded as the none result, and every successfully
returned sequence is nonempty. -/
theorem sample_sketch_zero_budget {σ : Type} (step : σ → Stroke6 × σ) (s0 : σ) :
    sample_sketch step 0 s0 = none ∧
    ∀ (n : ℕ) (l : List Stroke6), sample_sketch step n s0 = some l → l ≠ [] := by
  constructor
  · simp [sample_sketch, sampleLoop]
  · intro n l hl
    simp only [sample_sketch] at hl
    by_cases he : (sampleLoop step n s0).isEmpty
    · rw [if_pos he] at hl
      exact absurd hl (by simp)
    · rw [if_neg he] at hl
      cases hl
      intro hnil
      rw [hnil] at he
      simp at he

/-- Concrete end-of-sequence point used by the sampling witnesses. -/
def eosPoint : Stroke6 := ⟨0, 0, 0, 0, 0, 1⟩

/-- Concrete step function that always samples the end-of-sequence point. -/
def constStepEOS : Unit → Stroke6 × Unit := fun _ => (eosPoint, ())

/-- Witness for C7 at budget 1 with the constant end-of-sequence sampler. -/
theorem sample_sketch_spec_witness :
    1 ≤ 1 ∧ ∃ l, sample_sketch constStepEOS 1 () = some l ∧ 1 ≤ l.length ∧ l.length ≤ 1 ∧
      (∀ p ∈ l.dropLast, penArgmax p.p1 p.p2 p.p3 ≠ 2) ∧
      (l.length < 1 → ∃ p, l.getLast? = some p ∧ penArgmax p.p1 p.p2 p.p3 = 2) :=
  ⟨le_refl 1, sample_sketch_spec constStepEOS () 1 (le_refl 1)⟩

/-- Witness for C10: the zero-budget run returns none, and applying the
nonemptiness part to the concrete budget-1 run shows its result nonempty. -/
theorem sample_sketch_zero_budget_witness :
    sample_sketch constStepEOS 0 () = none ∧ [eosPoint] ≠ ([] : List Stroke6) :=
  ⟨(sample_sketch_zero_budget constStepEOS ()).1,
   (sample_sketch_zero_budget constStepEOS ()).2 1 [eosPoint] (by decide)⟩

/-! ## Tensor shapes of the forward pass (models/vae.py, DoodleGenRNN)

The end-to-end shape claim is settled in a shape calculus: a tensor is
abstracted to its shape, each layer maps input shapes to output shapes and
rejects mismatched dimensions with none, mirroring the layer contracts the
source relies on (nn.Linear acts on the last axis; nn.LSTM with batch_first
maps (B, T, F) to outputs (B, T, H * dirs) and a final hidden state of shape
(layers * dirs, B, H); pack_padded_sequence checks the lengths vector). -/

/-- Constructor arguments of DoodleGenRNN in models/vae.py that determine
tensor shapes. -/
structure VAEConfig where
  in_size : ℕ
  enc_hidden_size : ℕ
  dec_hidden_size : ℕ
  num_lstm_layers : ℕ
  latent_size : ℕ
  num_gmm_modes : ℕ

/-- Tensor shapes as lists of dimension sizes. -/
abbrev Shape := List ℕ

/-- Shape action of nn.Linear: the last axis must equal the in-features and
is replaced by the out-features; leading axes pass through. -/
def linearShape (inF outF : ℕ) : Shape → Option Shape
  | [] => none
  | [f] => if f = inF then some [outF] else none
  | d :: rest => (linearShape inF outF rest).map (fun s => d :: s)

/-- Shape action of nn.LSTM with batch_first on (B, T, F): the feature axis
must equal the input size; the result is the output shape and the shape of
the final hidden state hn. -/
def lstmShape (inputSize hiddenSize numLayers : ℕ) (bidir : Bool) : Shape → Option (Shape × Shape)
  | [b, t, f] =>
    if f = inputSize ∧ 1 ≤ numLayers then
      some ([b, t, hiddenSize * (if bidir then 2 else 1)],
            [numLayers * (if bidir then 2 else 1), b, hiddenSize])
    else none
  | _ => none

/-- Contract of pack_padded_sequence with enforce_sorted disabled: one true
length per batch row, each positive and at most the padded length. -/
def packPaddedOK (lengths : List ℕ) (b t : ℕ) : Prop :=
  lengths.length = b ∧ ∀ l ∈ lengths, 1 ≤ l ∧ l ≤ t

instance (lengths : List ℕ) (b t : ℕ) : Decidable (packPaddedOK lengths b t) := by
  unfold packPaddedOK
  infer_instance

/-- Shape pipeline of DoodleGenRNN.encode: pack the padded batch, run the
bidirectional encoder, keep the last two layers of hn, permute and flatten
them to (B, 2 H), and project twice to the latent size for mu and logvar. -/
def encodeShape (cfg : VAEConfig) (x : Shape) (lengths : List ℕ) : Option (Shape × Shape) :=
  match x with
  | [b, t, f] =>
    if packPaddedOK lengths b t then
      match lstmShape cfg.in_size cfg.enc_hidden_size cfg.num_lstm_layers true [b, t, f] with
      | some (_, [dl, b2, hdim]) =>
        if 2 ≤ dl then
          match linearShape (cfg.enc_hidden_size * 2) cfg.latent_size [b2, 2 * hdim],
                linearShape (cfg.enc_hidden_size * 2) cfg.latent_size [b2, 2 * hdim] with
          | some mu, some logvar => some (mu, logvar)
          | _, _ => none
        else none
      | _ => none
    else none
  | _ => none

/-- Shape pipeline of DoodleGenRNN.decode with teacher-forcing inputs: build
the initial hidden and cell states from z through two linear layers, expand z
along time and concatenate it to the inputs, then run the unidirectional
decoder. -/
def decodeShape (cfg : VAEConfig) (z : Shape) (inputs : Shape) : Option Shape :=
  match z, inputs with
  | [b, lz], [b2, t, f] =>
    match linearShape cfg.latent_size cfg.dec_hidden_size [b, lz],
          linearShape cfg.latent_size cfg.dec_hidden_size [b, lz] with
    | some _, some _ =>
      if b2 = b then
        match lstmShape (cfg.in_size + cfg.latent_size) cfg.dec_hidden_size
            cfg.num_lstm_layers false [b, t, f + lz] with
        | some (out, _) => some out
        | _ => none
      else none
    | _, _ => none
  | _, _ => none

/-- Shape pipeline of DoodleGenRNN.forward: encode to mu and logvar, clamp
logvar and reparameterize (both shape preserving), decode, and project the
decoder output to the 8 M + 3 mixture parameters. -/
def forwardShape (cfg : VAEConfig) (x : Shape) (lengths : List ℕ) (inputs : Option Shape) :
    Option (Shape × Shape × Shape) :=
  match encodeShape cfg x lengths with
  | some (mu, logvar) =>
    let inp : Option Shape :=
      match inputs, x with
      | some i, _ => some i
      | none, [b, _, _] => some [b, lengths.length, cfg.in_size]
      | none, _ => none
    match inp with
    | some i =>
      match decodeShape cfg mu i with
      | some dec =>
        match linearShape cfg.dec_hidden_size (8 * cfg.num_gmm_modes + 3) dec with
        | some gmm => some (gmm, mu, logvar)
        | none => none
      | none => none
    | none => none
  | none => none

/-- C8: for a padded stroke-6 batch of shape (4, 5, 6) with true lengths
5, 5, 3, 3, mixture mode count 3 and latent size 8, and any encoder width,
decoder width and positive layer count, the forward pass yields a mixture
parameter tensor of shape (4, 5, 27) and mu and logvar of shape (4, 8). -/
theorem forward_shape_spec (H D L : ℕ) (hL : 1 ≤ L) :
    forwardShape ⟨6, H, D, L, 8, 3⟩ [4, 5, 6] [5, 5, 3, 3] (some [4, 5, 6]) =
      some ([4, 5, 27], [4, 8], [4, 8]) := by
  have hlin : linearShape (H * 2) 8 [4, 2 * H] = some [4, 8] := by
    simp only [linearShape]
    rw [if_pos (Nat.mul_comm 2 H)]
    rfl
  have henc : encodeShape ⟨6, H, D, L, 8, 3⟩ [4, 5, 6] [5, 5, 3, 3] = some ([4, 8], [4, 8]) := by
    have h2L : 2 ≤ L * 2 := by omega
    simp only [encodeShape, lstmShape, if_true]
    rw [if_pos (by decide : packPaddedOK [5, 5, 3, 3] 4 5)]
    rw [if_pos (show True ∧ 1 ≤ L from ⟨trivial, hL⟩)]
    dsimp only
    rw [if_pos h2L, hlin]
  have hlinD : linearShape 8 D [4, 8] = some [4, D] := by
    simp [linearShape]
  have hdec : decodeShape ⟨6, H, D, L, 8, 3⟩ [4, 8] [4, 5, 6] = some [4, 5, D] := by
    simp only [decodeShape, lstmShape, if_true]
    rw [hlinD]
    dsimp only
    rw [if_pos (show True ∧ 1 ≤ L from ⟨trivial, hL⟩)]
    simp
  have hgmm : linearShape D 27 [4, 5, D] = some [4, 5, 27] := by
    simp [linearShape]
  simp only [forwardShape, henc]
  rw [hdec]
  norm_num [hgmm]

/-- Witness for C8 at encoder width 16, decoder width 32 and one layer. -/
theorem forward_shape_spec_witness :
    1 ≤ 1 ∧
    forwardShape ⟨6, 16, 32, 1, 8, 3⟩ [4, 5, 6] [5, 5, 3, 3] (some [4, 5, 6]) =
      some ([4, 5, 27], [4, 8], [4, 8]) :=
  ⟨le_refl 1, forward_shape_spec 16 32 1 (le_refl 1)⟩
